import Mathlib

/-!
Verification of the live market-index reconciliation module.

Shallow embedding of `Analysis_Tools/app/static/js/home_live_updates.js`:
the freshness classifier, minute-bucket deduplication, series splicer,
per-field source arbiter, poll loops, fetch helpers and the start/stop
lifecycle, together with theorems settling the specified properties.

JavaScript strings are embedded as `List Char` (`JStr`); JS string
comparison `<` (lexicographic on code units) is embedded as `jsStrLt`.
Numeric price fields are embedded as `Rat`.
-/

/-- JavaScript strings, embedded as lists of characters. -/
abbrev JStr := List Char

/-- JS string comparison `a < b`: lexicographic, code-unit by code-unit. -/
def jsStrLt : JStr → JStr → Bool
  | [], [] => false
  | [], _ :: _ => true
  | _ :: _, [] => false
  | a :: as, b :: bs => if a < b then true else if b < a then false else jsStrLt as bs

/-- One element of an Upstox `history` array:
`{ timestamp: "YYYY-MM-DD HH:MM:SS", value: float }` (the timestamp may be
absent in malformed payloads). -/
structure HistItem where
  timestamp : Option JStr
  value : Rat
deriving DecidableEq, Repr

/-- Decimal digit character, `digitChar n = '0' + n` for `n < 10`. -/
def digitChar (n : Nat) : Char := Char.ofNat (48 + n)

/-- Fuel-indexed decimal printer (most significant digit first). -/
def natDigsGo : Nat → Nat → List Char
  | 0, _ => []
  | fuel + 1, n =>
    if n < 10 then [digitChar n] else natDigsGo fuel (n / 10) ++ [digitChar (n % 10)]

/-- Decimal representation of a natural number, as `String(n)` in JS. -/
def natDigs (n : Nat) : JStr := natDigsGo (n + 1) n

/-- `String(n).padStart(2, '0')`. -/
def pad2 (n : Nat) : JStr :=
  let s := natDigs n
  if s.length < 2 then '0' :: s else s

/-- `todayDateStr()` (lines 15–21): today's local date formatted
`YYYY-MM-DD`, with the clock's year/month/day passed explicitly
(the month already 1-based, as after the source's `getMonth() + 1`). -/
def todayDateStr (y m d : Nat) : JStr :=
  natDigs y ++ '-' :: (pad2 m ++ '-' :: pad2 d)

/-- `upstoxHistoryIsToday(history)` (lines 27–32): true only when the
history's last item exists, has a truthy timestamp, and that timestamp
starts with today's date string. -/
def upstoxHistoryIsToday (today : JStr) (history : Option (List HistItem)) : Bool :=
  match history with
  | none => false
  | some h =>
    if h.isEmpty then false
    else
      match h.getLast? with
      | none => false
      | some lastItem =>
        match lastItem.timestamp with
        | none => false
        | some ts => if ts = [] then false else List.isPrefixOf today ts

/-! ## Association maps (JS plain objects / `Map` with insertion order) -/

/-- Property read `m[k]`: first binding of `k`, if any. -/
def alook {β : Type} : List (JStr × β) → JStr → Option β
  | [], _ => none
  | (k, v) :: rest, key => if k = key then some v else alook rest key

/-- Property write `m[k] = v` / `Map.set(k, v)`: overwrite in place when the
key is present (JS objects and `Map`s keep the original insertion position),
otherwise append at the end. -/
def aset {β : Type} (m : List (JStr × β)) (k : JStr) (v : β) : List (JStr × β) :=
  if k ∈ m.map Prod.fst then
    m.map (fun p => if p.1 = k then (p.1, v) else p)
  else m ++ [(k, v)]

/-! ## Minute-bucket deduplication (lines 199–209) -/

/-- The `HH:MM` minute label of one history item:
`(item.timestamp || '').split(' ')`, then `parts[1].substring(0, 5)` when at
least two parts exist, else the empty string. -/
def minuteLabel (ts : Option JStr) : JStr :=
  let parts := List.splitOn ' ' (ts.getD [])
  if 2 ≤ parts.length then ((parts.get? 1).getD []).take 5 else []

/-- The loop body of lines 203–207 over the `minuteMap`. -/
def minuteDedupGo (m : List (JStr × Rat)) : List HistItem → List (JStr × Rat)
  | [] => m
  | item :: rest =>
    let label := minuteLabel item.timestamp
    minuteDedupGo (if label = [] then m else aset m label item.value) rest

/-- Minute-bucket deduplication of an Upstox history: one `(label, value)`
pair per `HH:MM` minute, keys in first-appearance order, values overwritten
so that the latest value for each minute survives. -/
def minuteDedup (hist : List HistItem) : List (JStr × Rat) :=
  minuteDedupGo [] hist

/-- The value of the last item, in input order, whose (nonempty) minute label
is `k` — the reference meaning of "last value seen for that minute". -/
def lastValueForMinute (k : JStr) : List HistItem → Option Rat
  | [] => none
  | item :: rest =>
    match lastValueForMinute k rest with
    | some v => some v
    | none =>
      if minuteLabel item.timestamp ≠ [] ∧ minuteLabel item.timestamp = k
      then some item.value else none

/-- The nonempty minute labels of a history, in input order. -/
def histLabels (hist : List HistItem) : List JStr :=
  (hist.map (fun i => minuteLabel i.timestamp)).filter (fun l => l ≠ [])

/-! ## Series splicer (lines 211–230) -/

/-- The NSE day-chart cache entry for one entity: parallel label/value
arrays (`nseBaseChart[key] = { labels, values }`). -/
structure BaseChart where
  labels : List JStr
  values : List Rat
deriving DecidableEq, Repr

/-- Full-day OHLC cache entry (`nseChartOhlc[key]`). -/
structure DayOhlc where
  open_ : Rat
  high : Rat
  low : Rat
  close : Rat
deriving DecidableEq, Repr

/-- The loop of lines 217–222: walk the parallel base arrays and keep every
`(label, value)` pair whose label is strictly below `first`. -/
def filterBase : List JStr → List Rat → JStr → List JStr × List Rat
  | l :: ls, v :: vs, first =>
    let r := filterBase ls vs first
    if jsStrLt l first then (l :: r.1, v :: r.2) else r
  | _, _, _ => ([], [])

/-- The Upstox branch of `updateChart` (lines 198–230): minute-deduplicate
the history, then prepend the cached base pairs strictly before the first
fast minute when a nonempty base exists. -/
def spliceHist (baseM : List (JStr × BaseChart)) (indexKey : JStr)
    (hist : List HistItem) : List JStr × List Rat :=
  let dd := minuteDedup hist
  let upLabels := dd.map Prod.fst
  let upValues := dd.map Prod.snd
  match alook baseM indexKey with
  | some b =>
    if 0 < b.labels.length ∧ 0 < upLabels.length then
      let first := upLabels.headD []
      let fb := filterBase b.labels b.values first
      (fb.1 ++ upLabels, fb.2 ++ upValues)
    else (upLabels, upValues)
  | none => (upLabels, upValues)

/-! ## NSE series parsing (lines 172–195) -/

/-- The loop of lines 175–184: read IST hours/minutes directly off the
epoch-ms value (the feed encodes IST wall-clock as pseudo-UTC), skip points
outside 09:00–15:30, and format `HH:MM` labels. -/
def parseNseSeries : List (Nat × Rat) → List JStr × List Rat
  | [] => ([], [])
  | (ts, price) :: rest =>
    let r := parseNseSeries rest
    let hh := ts / 3600000 % 24
    let mm := ts / 60000 % 60
    let totalMin := hh * 60 + mm
    if totalMin < 9 * 60 ∨ 15 * 60 + 30 < totalMin then r
    else ((pad2 hh ++ ':' :: pad2 mm) :: r.1, price :: r.2)

/-- `Math.max(...values)` for a nonempty list (0 as an unused default). -/
def listMax : List Rat → Rat
  | [] => 0
  | a :: rest => rest.foldl max a

/-- `Math.min(...values)` for a nonempty list (0 as an unused default). -/
def listMin : List Rat → Rat
  | [] => 0
  | a :: rest => rest.foldl min a

/-! ## `updateChart` (lines 164–249) -/

/-- The duck-typed argument of `updateChart`: either an NSE chart payload
(`series` present) or an Upstox record (`history` present); absent JS
fields are `none`. -/
structure ChartInput where
  series : Option (List (Nat × Rat)) := none
  history : Option (List HistItem) := none
  open_ : Option Rat := none
  high : Option Rat := none
  low : Option Rat := none
  close : Option Rat := none
  percent : Option Rat := none
  percentChange : Option Rat := none
deriving DecidableEq, Repr

/-- JS `a >= b` on numbers. -/
def jsGe (a b : Rat) : Bool := decide (b ≤ a)

/-- `data.percentChange ?? data.percent ?? (values[last] - values[0])`
(line 236). -/
def rawPct (data : ChartInput) (values : List Rat) : Rat :=
  match data.percentChange with
  | some p => p
  | none =>
    match data.percent with
    | some p => p
    | none => values.getLastD 0 - values.headD 0

/-- What lines 233–248 push to the chart library. -/
structure ChartRender where
  labels : List JStr
  values : List Rat
  isPositive : Bool
deriving DecidableEq, Repr

/-- Lines 233–248: no render when the assembled values are empty, else the
labels/values and the gradient trend sign. -/
def mkRender (data : ChartInput) (labels : List JStr) (values : List Rat) :
    Option ChartRender :=
  if values.length = 0 then none
  else some ⟨labels, values, jsGe (rawPct data values) 0⟩

/-- The NSE branch of `updateChart` (lines 172–196 plus the shared tail):
parse the series, and when the in-session part is nonempty overwrite the
base-chart and OHLC caches for this entity. -/
def updateChartNse (indexKey : JStr) (data : ChartInput) (s : List (Nat × Rat))
    (baseM : List (JStr × BaseChart)) (ohlcM : List (JStr × DayOhlc)) :
    List (JStr × BaseChart) × List (JStr × DayOhlc) × Option ChartRender :=
  let p := parseNseSeries s
  let labels := p.1
  let values := p.2
  if 0 < labels.length then
    (aset baseM indexKey ⟨labels, values⟩,
     aset ohlcM indexKey
       ⟨data.open_.getD (values.headD 0),
        data.high.getD (listMax values),
        data.low.getD (listMin values),
        data.close.getD (values.getLastD 0)⟩,
     mkRender data labels values)
  else (baseM, ohlcM, mkRender data labels values)

/-- The Upstox branch of `updateChart` (lines 198–231 plus the shared tail):
splice without touching either cache. -/
def updateChartHist (indexKey : JStr) (data : ChartInput)
    (baseM : List (JStr × BaseChart)) (ohlcM : List (JStr × DayOhlc)) :
    List (JStr × BaseChart) × List (JStr × DayOhlc) × Option ChartRender :=
  match data.history with
  | some hist =>
    if 0 < hist.length then
      let sp := spliceHist baseM indexKey hist
      (baseM, ohlcM, mkRender data sp.1 sp.2)
    else (baseM, ohlcM, none)
  | none => (baseM, ohlcM, none)

/-- `updateChart(indexKey, data)` (lines 164–249) as a pure function of the
two caches, returning the new caches and the optional chart render. -/
def updateChart (indexKey : JStr) (data : ChartInput)
    (baseM : List (JStr × BaseChart)) (ohlcM : List (JStr × DayOhlc)) :
    List (JStr × BaseChart) × List (JStr × DayOhlc) × Option ChartRender :=
  match data.series with
  | some s =>
    if 0 < s.length then updateChartNse indexKey data s baseM ohlcM
    else updateChartHist indexKey data baseM ohlcM
  | none => updateChartHist indexKey data baseM ohlcM

/-! ## Source snapshots and the render sink -/

/-- One entity's record in the fast (Upstox `/api/live-indices`) payload. -/
structure UpstoxRec where
  value : Rat
  change : Rat
  percentChange : Rat
  history : Option (List HistItem)
deriving DecidableEq, Repr

/-- One entity's record in the slow (NSE `/api/nse-indices`) payload. -/
structure NsePriceRec where
  value : Rat
  change : Rat
  percentChange : Rat
  open_ : Rat
  high : Rat
  low : Rat
deriving DecidableEq, Repr

/-- The fields `updateIndexCard` reads off its `data` argument. -/
structure CardData where
  value : Rat
  change : Rat
  percentChange : Rat
deriving DecidableEq, Repr

/-- The DOM effect of `updateIndexCard` (lines 94–110): shown value and
percent, the `up`/`down` classes (toggled with `isUp` and `¬isUp`), and
whether the text is prefixed with `'+'`. -/
structure CardRender where
  value : Rat
  pct : Rat
  isUp : Bool
  isDown : Bool
  signPlus : Bool
deriving DecidableEq, Repr

/-- `updateIndexCard`'s formatting/classification (lines 94–110):
`isUp = pct >= 0`, the `down` class is toggled with `!isUp`, and the sign
prefix is `'+'` exactly when `pct >= 0`. -/
def renderCard (d : CardData) : CardRender :=
  { value := d.value
    pct := d.percentChange
    isUp := jsGe d.percentChange 0
    isDown := !jsGe d.percentChange 0
    signPlus := jsGe d.percentChange 0 }

/-- The assembled detail-panel record `{ value, change, percentChange,
open, high, low }`; OHLC fields are optional because the fast snapshot has
none. -/
structure DisplayRecord where
  value : Rat
  change : Rat
  percentChange : Rat
  open_ : Option Rat
  high : Option Rat
  low : Option Rat
deriving DecidableEq, Repr

/-- The DOM effect of `updateIndexDetail` (lines 113–147): the change
element's `up` class is toggled with `chg >= 0`, its `down` class with
`chg < 0`, the `'+'` prefixes come from `chg >= 0` and `pct >= 0`, and the
OHLC cells show `fmt(v || 0)`. -/
structure DetailRender where
  value : Rat
  change : Rat
  pct : Rat
  chgUp : Bool
  chgDown : Bool
  chgSignPlus : Bool
  pctSignPlus : Bool
  openShown : Rat
  highShown : Rat
  lowShown : Rat
deriving DecidableEq, Repr

/-- `updateIndexDetail(indexKey, data)` (lines 113–147) as a pure render. -/
def updateIndexDetail (d : DisplayRecord) : DetailRender :=
  { value := d.value
    change := d.change
    pct := d.percentChange
    chgUp := jsGe d.change 0
    chgDown := decide (d.change < 0)
    chgSignPlus := jsGe d.change 0
    pctSignPlus := jsGe d.percentChange 0
    openShown := d.open_.getD 0
    highShown := d.high.getD 0
    lowShown := d.low.getD 0 }

/-- The seven entity keys of `_cardMap()` (lines 75–85). -/
def cardKeys : List JStr :=
  ["nifty50".data, "banknifty".data, "sensex".data, "niftyfin".data,
   "niftynext50".data, "nifty100".data, "indiavix".data]

/-! ## Render events and updater state -/

/-- One observable DOM/chart mutation of the module. -/
inductive RenderEvent where
  | card (key : JStr) (r : CardRender)
  | detail (key : JStr) (d : DisplayRecord)
  | chart (r : ChartRender)
deriving DecidableEq, Repr

/-- `updateIndexCard(indexKey, data)` (lines 87–111): a no-op for keys
outside `_cardMap()`. -/
def updateIndexCard (key : JStr) (d : CardData) : Option RenderEvent :=
  if key ∈ cardKeys then some (.card key (renderCard d)) else none

/-- The mutable fields of `LiveIndicesUpdater` the poll loops touch. -/
structure UpdState where
  selectedIndex : JStr
  latestUpstoxData : Option (List (JStr × UpstoxRec))
  latestNseData : Option (List (JStr × NsePriceRec))
  nseBaseChart : List (JStr × BaseChart)
  nseChartOhlc : List (JStr × DayOhlc)
deriving DecidableEq, Repr

/-! ## Poll loops -/

/-- Lines 333–336: the card data used on a fast tick — the fast record's
fields, with `change`/`percentChange` replaced by the cached NSE record's
when one exists for this key. -/
def upstoxCardData (nse : Option (List (JStr × NsePriceRec))) (key : JStr)
    (rec : UpstoxRec) : CardData :=
  match nse.bind (fun m => alook m key) with
  | some nc => { value := rec.value, change := nc.change, percentChange := nc.percentChange }
  | none => { value := rec.value, change := rec.change, percentChange := rec.percentChange }

/-- Lines 345–349 and 394–398: the detail-panel record assembled by object
spread — the fast record's fields, overridden per group by the cached
DayOHLC (open/high/low) and the cached NSE price record
(change/percentChange) when present. -/
def assembleDetailData (sel : UpstoxRec) (nseOhlc : Option DayOhlc)
    (nsePrice : Option NsePriceRec) : DisplayRecord :=
  { value := sel.value
    change := match nsePrice with | some p => p.change | none => sel.change
    percentChange := match nsePrice with | some p => p.percentChange | none => sel.percentChange
    open_ := nseOhlc.map (fun o => o.open_)
    high := nseOhlc.map (fun o => o.high)
    low := nseOhlc.map (fun o => o.low) }

/-- The `ChartInput` view of a fast record passed to `updateChart` (line
352): only `history` and `percentChange` are present. -/
def chartInputOfUpstox (sel : UpstoxRec) : ChartInput :=
  { history := sel.history, percentChange := some sel.percentChange }

/-- `_pollUpstox()` (lines 321–355) as a pure step: the fetched payload (or
`none` on a failed fetch) is applied to the state, yielding the new state
and the DOM/chart render events in program order. -/
def pollUpstox (today : JStr) (st : UpdState)
    (fetched : Option (List (JStr × UpstoxRec))) : UpdState × List RenderEvent :=
  match fetched with
  | none => (st, [])
  | some data =>
    let st1 := { st with latestUpstoxData := some data }
    match alook data st1.selectedIndex with
    | none => (st1, [])
    | some sel =>
      if upstoxHistoryIsToday today sel.history then
        let cardEvents := data.filterMap
          (fun kr => updateIndexCard kr.1 (upstoxCardData st1.latestNseData kr.1 kr.2))
        let nseOhlc := alook st1.nseChartOhlc st1.selectedIndex
        let nsePrice := st1.latestNseData.bind (fun m => alook m st1.selectedIndex)
        let detailEv := RenderEvent.detail st1.selectedIndex
          (assembleDetailData sel nseOhlc nsePrice)
        let u := updateChart st1.selectedIndex (chartInputOfUpstox sel)
          st1.nseBaseChart st1.nseChartOhlc
        ({ st1 with nseBaseChart := u.1, nseChartOhlc := u.2.1 },
         cardEvents ++ detailEv :: (u.2.2.map RenderEvent.chart).toList)
      else (st1, [])

/-- Lines 291–293: `latestUpstoxData && latestUpstoxData[key] &&
upstoxHistoryIsToday(...)`. -/
def upstoxOkFor (today : JStr) (upstox : Option (List (JStr × UpstoxRec)))
    (key : JStr) : Bool :=
  match upstox.bind (fun m => alook m key) with
  | some ur => upstoxHistoryIsToday today ur.history
  | none => false

/-- The `DisplayRecord` view of an NSE price record (all fields present). -/
def displayOfNse (rec : NsePriceRec) : DisplayRecord :=
  { value := rec.value, change := rec.change, percentChange := rec.percentChange
    open_ := some rec.open_, high := some rec.high, low := some rec.low }

/-- `_pollNsePrices()` (lines 284–306) as a pure step. -/
def pollNsePrices (today : JStr) (st : UpdState)
    (fetched : Option (List (JStr × NsePriceRec))) : UpdState × List RenderEvent :=
  match fetched with
  | none => (st, [])
  | some data =>
    let st1 := { st with latestNseData := some data }
    let cardEvents := data.filterMap (fun kr =>
      if upstoxOkFor today st1.latestUpstoxData kr.1 then none
      else updateIndexCard kr.1
        { value := kr.2.value, change := kr.2.change, percentChange := kr.2.percentChange })
    let detailEvents :=
      if upstoxOkFor today st1.latestUpstoxData st1.selectedIndex then []
      else
        match alook data st1.selectedIndex with
        | some rec => [RenderEvent.detail st1.selectedIndex (displayOfNse rec)]
        | none => []
    (st1, cardEvents ++ detailEvents)

/-! ## Fetch helpers (lines 253–280) -/

/-- The outcome of one `fetch` call: the promise rejects (network/transport
failure), or an HTTP response arrives with its `ok` flag and a body that
either fails JSON parsing (`none`) or parses to a payload. -/
inductive FetchResult (α : Type) where
  | netFail : FetchResult α
  | response : Bool → Option α → FetchResult α
deriving DecidableEq, Repr

/-- The parsed body shape of `/api/nse-chart/<idx>`. -/
structure ChartPayload where
  success : Bool
  series : List (Nat × Rat)
  open_ : Option Rat
  high : Option Rat
  low : Option Rat
  close : Option Rat
  percent : Option Rat
deriving DecidableEq, Repr

/-- The parsed body shape of `/api/nse-indices`. -/
structure PricesPayload where
  success : Bool
  indices : Option (List (JStr × NsePriceRec))
deriving DecidableEq, Repr

/-- The parsed body shape of `/api/live-indices`. -/
structure UpstoxPayload where
  success : Bool
  indices : Option (List (JStr × UpstoxRec))
deriving DecidableEq, Repr

/-- `fetchNseChart` (lines 253–260): any rejection, non-ok status, parse
failure or `success: false` yields `null`; the whole body is wrapped in
`try`/`catch`, so the function is total. -/
def fetchNseChart : FetchResult ChartPayload → Option ChartPayload
  | .netFail => none
  | .response ok body =>
    if ok then
      match body with
      | none => none
      | some j => if j.success then some j else none
    else none

/-- `fetchNsePrices` (lines 262–269): additionally requires a nonempty
`indices` map, returning `json.indices` itself. -/
def fetchNsePrices : FetchResult PricesPayload → Option (List (JStr × NsePriceRec))
  | .netFail => none
  | .response ok body =>
    if ok then
      match body with
      | none => none
      | some j =>
        if j.success ∧ 0 < (j.indices.getD []).length then j.indices else none
    else none

/-- `fetchUpstoxData` (lines 271–280): rejection, non-ok, parse failure,
`success: false`, absent `indices`, or an empty `indices` map each yield
`null`. -/
def fetchUpstoxData : FetchResult UpstoxPayload → Option (List (JStr × UpstoxRec))
  | .netFail => none
  | .response ok body =>
    if ok then
      match body with
      | none => none
      | some j =>
        if j.success then
          match j.indices with
          | none => none
          | some m => if m.length = 0 then none else some m
        else none
    else none

/-! ## Lifecycle (lines 412–448) -/

/-- The browser's interval-timer registry: a fresh-handle counter and the
set (list) of currently active intervals. -/
structure TimerSys where
  nextHandle : Nat
  active : List Nat
deriving DecidableEq, Repr

/-- The timer-related fields of `LiveIndicesUpdater`. -/
structure Lifecycle where
  isRunning : Bool
  upstoxTimer : Option Nat
  nsePriceTimer : Option Nat
  nseChartTimer : Option Nat
deriving DecidableEq, Repr

/-- `setInterval(...)`: allocate a fresh handle and activate it. -/
def setIntervalM (t : TimerSys) : Nat × TimerSys :=
  (t.nextHandle, { nextHandle := t.nextHandle + 1, active := t.active ++ [t.nextHandle] })

/-- `clearInterval(h)`: deactivate the handle; a no-op on `null`. -/
def clearIntervalM (t : TimerSys) (h : Option Nat) : TimerSys :=
  match h with
  | some hh => { t with active := t.active.filter (fun x => x ≠ hh) }
  | none => t

/-- `start()` (lines 412–438) restricted to its lifecycle effect: an early
return when already running, else set the flag and register the three
intervals (price, chart, upstox — the source's order). The immediate
first-load fetches mutate only the poll caches, never the timers. -/
def startM (s : Lifecycle × TimerSys) : Lifecycle × TimerSys :=
  if s.1.isRunning then s
  else
    let r1 := setIntervalM s.2
    let r2 := setIntervalM r1.2
    let r3 := setIntervalM r2.2
    ({ isRunning := true, nsePriceTimer := some r1.1, nseChartTimer := some r2.1,
       upstoxTimer := some r3.1 }, r3.2)

/-- `stop()` (lines 440–448): an early return when not running, else clear
the three intervals and null the handles. -/
def stopM (s : Lifecycle × TimerSys) : Lifecycle × TimerSys :=
  if s.1.isRunning then
    let t := clearIntervalM (clearIntervalM (clearIntervalM s.2 s.1.upstoxTimer)
      s.1.nsePriceTimer) s.1.nseChartTimer
    ({ isRunning := false, upstoxTimer := none, nsePriceTimer := none,
       nseChartTimer := none }, t)
  else s

/-! ## Concrete sample data (used by witnesses and counterexamples) -/

def sampleToday : JStr := "2026-10-12".data

def sampleHistFresh : List HistItem := [⟨some "2026-10-12 12:05:01".data, 100⟩]

def sampleHistStale : List HistItem := [⟨some "2026-10-11 12:05:01".data, 90⟩]

def sampleStaleRec : UpstoxRec := ⟨100, 1, 1, some sampleHistStale⟩

def sampleFreshRec : UpstoxRec := ⟨200, 2, 2, some sampleHistFresh⟩

def sampleFreshRec5 : UpstoxRec := ⟨300, 3, 5, some sampleHistFresh⟩

def sampleNseRec : NsePriceRec := ⟨299, -6, -2, 1, 2, 3⟩

def sampleOhlc : DayOhlc := ⟨10, 20, 5, 15⟩

def sampleState : UpdState := ⟨"nifty50".data, none, none, [], []⟩

def sampleStateNse : UpdState :=
  ⟨"nifty50".data, none, some [("nifty50".data, sampleNseRec)], [], []⟩

def sampleStateFull : UpdState :=
  ⟨"nifty50".data, none, some [("nifty50".data, sampleNseRec)], [],
   [("nifty50".data, sampleOhlc)]⟩

def sampleBase : BaseChart := ⟨["09:00".data, "09:01".data], [10, 11]⟩

def sampleBaseM : List (JStr × BaseChart) := [("nifty50".data, sampleBase)]

def sampleHist3 : List HistItem :=
  [⟨some "2026-10-12 12:05:01".data, 100⟩, ⟨some "2026-10-12 12:05:30".data, 101⟩,
   ⟨some "2026-10-12 12:06:02".data, 102⟩]

/-! ## Theorems: order properties of JS string comparison -/

theorem jsStrLt_irrefl (a : JStr) : jsStrLt a a = false := by
  induction a with
  | nil => rfl
  | cons c cs ih => simp [jsStrLt, ih]

theorem jsStrLt_asymm : ∀ a b : JStr, jsStrLt a b = true → jsStrLt b a = false := by
  intro a
  induction a with
  | nil =>
    intro b h
    cases b with
    | nil => simp [jsStrLt] at h
    | cons d ds => simp [jsStrLt]
  | cons c cs ih =>
    intro b h
    cases b with
    | nil => simp [jsStrLt] at h
    | cons d ds =>
      simp only [jsStrLt] at h ⊢
      rcases lt_trichotomy c d with hcd | hcd | hcd
      · simp [lt_asymm hcd, hcd]
      · subst hcd
        simp only [lt_self_iff_false, if_false] at h ⊢
        exact ih ds h
      · simp [lt_asymm hcd, hcd] at h

theorem jsStrLt_trans : ∀ a b c : JStr, jsStrLt a b = true → jsStrLt b c = true →
    jsStrLt a c = true := by
  intro a
  induction a with
  | nil =>
    intro b c hab hbc
    cases b with
    | nil => simp [jsStrLt] at hab
    | cons y ys =>
      cases c with
      | nil => simp [jsStrLt] at hbc
      | cons z zs => simp [jsStrLt]
  | cons x xs ih =>
    intro b c hab hbc
    cases b with
    | nil => simp [jsStrLt] at hab
    | cons y ys =>
      cases c with
      | nil => simp [jsStrLt] at hbc
      | cons z zs =>
        simp only [jsStrLt] at hab hbc ⊢
        rcases lt_trichotomy x y with h1 | h1 | h1
        · rcases lt_trichotomy y z with h2 | h2 | h2
          · simp [lt_trans h1 h2]
          · subst h2; simp [h1]
          · simp [lt_asymm h2, h2] at hbc
        · subst h1
          simp only [lt_self_iff_false, if_false] at hab
          rcases lt_trichotomy x z with h2 | h2 | h2
          · simp [h2]
          · subst h2
            simp only [lt_self_iff_false, if_false] at hbc ⊢
            exact ih ys zs hab hbc
          · simp [lt_asymm h2, h2] at hbc
        · simp [lt_asymm h1, h1] at hab

theorem jsStrLt_conn : ∀ a b : JStr, jsStrLt a b = false → jsStrLt b a = false →
    a = b := by
  intro a
  induction a with
  | nil =>
    intro b h1 _
    cases b with
    | nil => rfl
    | cons d ds => simp [jsStrLt] at h1
  | cons c cs ih =>
    intro b h1 h2
    cases b with
    | nil => simp [jsStrLt] at h2
    | cons d ds =>
      simp only [jsStrLt] at h1 h2
      rcases lt_trichotomy c d with h | h | h
      · simp [h] at h1
      · subst h
        simp only [lt_self_iff_false, if_false] at h1 h2
        rw [ih ds h1 h2]
      · simp [h] at h2

theorem jsStrLt_lt_of_lt_of_nlt (a b c : JStr) (h1 : jsStrLt a b = true)
    (h2 : jsStrLt c b = false) : jsStrLt a c = true := by
  cases h3 : jsStrLt b c with
  | true => exact jsStrLt_trans a b c h1 h3
  | false => rw [jsStrLt_conn b c h3 h2] at h1; exact h1

/-! ## Length of the formatted date string -/

theorem natDigsGo_small (f n : Nat) (hf : 0 < f) (hn : n < 10) :
    natDigsGo f n = [digitChar n] := by
  cases f with
  | zero => omega
  | succ f => simp [natDigsGo, hn]

theorem natDigsGo_length : ∀ (k f n : Nat), n < f → 10 ^ k ≤ n → n < 10 ^ (k + 1) →
    (natDigsGo f n).length = k + 1 := by
  intro k
  induction k with
  | zero =>
    intro f n hf h1 h2
    rw [natDigsGo_small f n (by omega) (by simpa using h2)]
    rfl
  | succ k ih =>
    intro f n hf h1 h2
    have hbase : (10 : Nat) ^ 1 ≤ 10 ^ (k + 1) :=
      Nat.pow_le_pow_right (by omega) (by omega)
    have h10 : 10 ≤ n := le_trans (by simpa using hbase) h1
    cases f with
    | zero => omega
    | succ f =>
      have hne : ¬ n < 10 := by omega
      simp only [natDigsGo, hne, if_false, List.length_append, List.length_cons,
        List.length_nil]
      have hdiv_lt : n / 10 < f := by
        have : n / 10 < n := Nat.div_lt_self (by omega) (by omega)
        omega
      have hle : 10 ^ k ≤ n / 10 := by
        rw [Nat.le_div_iff_mul_le (by omega)]
        calc 10 ^ k * 10 = 10 ^ (k + 1) := (pow_succ 10 k).symm
          _ ≤ n := h1
      have hlt : n / 10 < 10 ^ (k + 1) := by
        rw [Nat.div_lt_iff_lt_mul (by omega)]
        calc n < 10 ^ (k + 1 + 1) := h2
          _ = 10 ^ (k + 1) * 10 := pow_succ 10 (k + 1)
      rw [ih f (n / 10) hdiv_lt hle hlt]

theorem natDigs_length_four (y : Nat) (h1 : 1000 ≤ y) (h2 : y < 10000) :
    (natDigs y).length = 4 := by
  have := natDigsGo_length 3 (y + 1) y (by omega) (by norm_num; omega) (by norm_num; omega)
  simpa [natDigs] using this

theorem pad2_length (n : Nat) (h : n < 100) : (pad2 n).length = 2 := by
  by_cases hn : n < 10
  · have h1 : natDigs n = [digitChar n] := natDigsGo_small (n + 1) n (by omega) hn
    simp [pad2, h1]
  · have h2 : (natDigs n).length = 2 := by
      have := natDigsGo_length 1 (n + 1) n (by omega) (by norm_num; omega) (by norm_num; omega)
      simpa [natDigs] using this
    simp [pad2, h2]

theorem todayDateStr_length (y m d : Nat) (hy1 : 1000 ≤ y) (hy2 : y < 10000)
    (hm : m < 100) (hd : d < 100) : (todayDateStr y m d).length = 10 := by
  simp [todayDateStr, List.length_append, natDigs_length_four y hy1 hy2,
    pad2_length m hm, pad2_length d hd]

/-- C4: the freshness classifier is a pure function of the series and the
clock's date: it returns `fresh` exactly when the series is present and
nonempty, its last element carries a timestamp, and that timestamp's first
10 characters (the date prefix) equal today's local date formatted
`YYYY-MM-DD`; an absent or empty series or a missing timestamp classify as
not-fresh. -/
theorem freshness_classifier_spec (y m d : Nat) (history : Option (List HistItem))
    (hy1 : 1000 ≤ y) (hy2 : y < 10000) (hm : m < 100) (hd : d < 100) :
    upstoxHistoryIsToday (todayDateStr y m d) history = true ↔
      ∃ h lastItem ts, history = some h ∧ h.getLast? = some lastItem ∧
        lastItem.timestamp = some ts ∧ ts.take 10 = todayDateStr y m d := by
  have hlen := todayDateStr_length y m d hy1 hy2 hm hd
  cases history with
  | none => simp [upstoxHistoryIsToday]
  | some h =>
    cases h with
    | nil => simp [upstoxHistoryIsToday]
    | cons x xs =>
      cases hl : (x :: xs).getLast? with
      | none => simp [List.getLast?_eq_none_iff] at hl
      | some lastItem =>
        cases ht : lastItem.timestamp with
        | none =>
          have hfalse : upstoxHistoryIsToday (todayDateStr y m d) (some (x :: xs)) = false := by
            simp [upstoxHistoryIsToday, hl, ht]
          rw [hfalse]
          simp only [Bool.false_eq_true, false_iff]
          rintro ⟨h', li', ts', hh', hl', ht', _⟩
          rw [Option.some_inj] at hh'
          subst hh'
          rw [hl] at hl'
          rw [Option.some_inj] at hl'
          subst hl'
          rw [ht] at ht'
          exact Option.noConfusion ht'
        | some ts =>
          by_cases hts : ts = []
          · subst hts
            have hfalse : upstoxHistoryIsToday (todayDateStr y m d) (some (x :: xs)) = false := by
              simp [upstoxHistoryIsToday, hl, ht]
            rw [hfalse]
            simp only [Bool.false_eq_true, false_iff]
            rintro ⟨h', li', ts', hh', hl', ht', htake⟩
            rw [Option.some_inj] at hh'
            subst hh'
            rw [hl] at hl'
            rw [Option.some_inj] at hl'
            subst hl'
            rw [ht] at ht'
            rw [Option.some_inj] at ht'
            subst ht'
            rw [List.take_nil] at htake
            have : (todayDateStr y m d).length = 0 := by rw [← htake]; rfl
            omega
          · have heq : upstoxHistoryIsToday (todayDateStr y m d) (some (x :: xs)) =
                List.isPrefixOf (todayDateStr y m d) ts := by
              simp [upstoxHistoryIsToday, hl, ht, hts]
            rw [heq]
            rw [List.isPrefixOf_iff_prefix, List.prefix_iff_eq_take, hlen]
            constructor
            · intro hpre
              exact ⟨x :: xs, lastItem, ts, rfl, hl, ht, hpre.symm⟩
            · rintro ⟨h', li', ts', hh', hl', ht', htake⟩
              rw [Option.some_inj] at hh'
              subst hh'
              rw [hl] at hl'
              rw [Option.some_inj] at hl'
              subst hl'
              rw [ht] at ht'
              rw [Option.some_inj] at ht'
              subst ht'
              exact htake.symm

/-- Witness for C4 at a concrete clock and a concrete one-point history. -/
theorem freshness_classifier_spec_witness :
    upstoxHistoryIsToday (todayDateStr 2026 10 12)
      (some [⟨some "2026-10-12 09:15:00".data, 100⟩]) = true := by
  exact (freshness_classifier_spec 2026 10 12
      (some [⟨some "2026-10-12 09:15:00".data, 100⟩])
      (by norm_num) (by norm_num) (by norm_num) (by norm_num)).mpr
    ⟨[⟨some "2026-10-12 09:15:00".data, 100⟩], ⟨some "2026-10-12 09:15:00".data, 100⟩,
      "2026-10-12 09:15:00".data, rfl, rfl, rfl, by decide⟩

/-- C9: `start()`/`stop()` are idempotent on the two-state running/stopped
lifecycle: a second `start()` is a no-op (so exactly one set of three
timers is ever active), and a second `stop()` is a no-op (and, being a
total function, produces no error); from the initial stopped state,
`start()` registers exactly three active timers. -/
theorem start_stop_idempotent :
    (∀ s : Lifecycle × TimerSys, startM (startM s) = startM s ∧ stopM (stopM s) = stopM s) ∧
    (startM (⟨false, none, none, none⟩, ⟨0, []⟩)).2.active.length = 3 := by
  constructor
  · intro s
    constructor
    · by_cases h : s.1.isRunning
      · simp [startM, h]
      · simp [startM, h, setIntervalM]
    · by_cases h : s.1.isRunning
      · simp [stopM, h]
      · simp [stopM, h]
  · rfl

/-- C10: a record whose percent change (card) or change (detail panel) is
exactly zero classifies as "up": the `up` class is applied, the `down`
class is removed, and the text is prefixed with `'+'`; zero is never
rendered as down. -/
theorem zero_change_renders_up :
    (∀ v c : Rat, (renderCard ⟨v, c, 0⟩).isUp = true ∧ (renderCard ⟨v, c, 0⟩).isDown = false ∧
      (renderCard ⟨v, c, 0⟩).signPlus = true) ∧
    (∀ (v pct : Rat) (o h l : Option Rat),
      (updateIndexDetail ⟨v, 0, pct, o, h, l⟩).chgUp = true ∧
      (updateIndexDetail ⟨v, 0, pct, o, h, l⟩).chgDown = false ∧
      (updateIndexDetail ⟨v, 0, pct, o, h, l⟩).chgSignPlus = true) ∧
    (∀ (v c : Rat) (o h l : Option Rat),
      (updateIndexDetail ⟨v, c, 0, o, h, l⟩).pctSignPlus = true) := by
  refine ⟨fun v c => ⟨?_, ?_, ?_⟩, fun v pct o h l => ⟨?_, ?_, ?_⟩, fun v c o h l => ?_⟩ <;>
    simp [renderCard, updateIndexDetail, jsGe]

/-- C8: every fetch helper swallows its failure modes: a rejected fetch, a
non-2xx response, a JSON parse failure, a `success: false` payload and (for
the indices endpoints) an absent or empty indices map each yield `null`;
each helper is a total function of the transport outcome, so no error
propagates past its boundary. -/
theorem fetch_helpers_swallow_failures :
    (fetchNseChart .netFail = none ∧
     (∀ b, fetchNseChart (.response false b) = none) ∧
     fetchNseChart (.response true none) = none ∧
     (∀ j, j.success = false → fetchNseChart (.response true (some j)) = none)) ∧
    (fetchNsePrices .netFail = none ∧
     (∀ b, fetchNsePrices (.response false b) = none) ∧
     fetchNsePrices (.response true none) = none ∧
     (∀ j, j.success = false → fetchNsePrices (.response true (some j)) = none) ∧
     (∀ j, j.indices = none → fetchNsePrices (.response true (some j)) = none) ∧
     (∀ j, j.indices = some [] → fetchNsePrices (.response true (some j)) = none)) ∧
    (fetchUpstoxData .netFail = none ∧
     (∀ b, fetchUpstoxData (.response false b) = none) ∧
     fetchUpstoxData (.response true none) = none ∧
     (∀ j, j.success = false → fetchUpstoxData (.response true (some j)) = none) ∧
     (∀ j, j.indices = none → fetchUpstoxData (.response true (some j)) = none) ∧
     (∀ j, j.indices = some [] → fetchUpstoxData (.response true (some j)) = none)) := by
  refine ⟨⟨rfl, fun b => rfl, rfl, fun j hj => ?_⟩,
    ⟨rfl, fun b => rfl, rfl, fun j hj => ?_, fun j hj => ?_, fun j hj => ?_⟩,
    ⟨rfl, fun b => rfl, rfl, fun j hj => ?_, fun j hj => ?_, fun j hj => ?_⟩⟩ <;>
    simp [fetchNseChart, fetchNsePrices, fetchUpstoxData, hj]

/-- Witness for C8: the `success: false` case of `fetchNseChart` at a
concrete payload. -/
theorem fetch_helpers_swallow_failures_witness :
    fetchNseChart (.response true (some ⟨false, [], none, none, none, none, none⟩)) = none := by
  exact fetch_helpers_swallow_failures.1.2.2.2 ⟨false, [], none, none, none, none, none⟩ rfl

/-! ## Association map lemmas -/

theorem alook_append {β : Type} (m₁ m₂ : List (JStr × β)) (k : JStr) :
    alook (m₁ ++ m₂) k = (alook m₁ k).orElse (fun _ => alook m₂ k) := by
  induction m₁ with
  | nil => simp [alook]
  | cons p rest ih =>
    obtain ⟨a, b⟩ := p
    by_cases h : a = k <;> simp [alook, h, ih]

theorem alook_eq_none_iff {β : Type} (m : List (JStr × β)) (k : JStr) :
    alook m k = none ↔ k ∉ m.map Prod.fst := by
  induction m with
  | nil => simp [alook]
  | cons p rest ih =>
    obtain ⟨a, b⟩ := p
    by_cases h : a = k
    · subst h
      simp only [alook, if_pos rfl, List.map_cons]
      refine ⟨fun hx => absurd hx (by simp), fun hx => absurd (List.mem_cons_self a _) hx⟩
    · simp only [alook, if_neg h, List.map_cons, List.mem_cons]
      rw [ih]
      constructor
      · intro hx
        rintro (hka | hmem)
        · exact h hka.symm
        · exact hx hmem
      · intro hx hmem
        exact hx (Or.inr hmem)

theorem alook_replace {β : Type} (m : List (JStr × β)) (k k' : JStr) (v : β) :
    alook (m.map (fun p => if p.1 = k then (p.1, v) else p)) k' =
      if k' = k then (alook m k).map (fun _ => v) else alook m k' := by
  induction m with
  | nil => simp [alook]
  | cons p rest ih =>
    obtain ⟨a, b⟩ := p
    rw [List.map_cons]
    by_cases hak : a = k <;> by_cases hk' : a = k'
    · subst hak; subst hk'
      have hel : (if (a, b).1 = a then ((a, b).1, v) else (a, b)) = (a, v) := by simp
      rw [hel]
      simp [alook]
    · subst hak
      have hel : (if (a, b).1 = a then ((a, b).1, v) else (a, b)) = (a, v) := by simp
      rw [hel]
      have hne : ¬ k' = a := fun h => hk' h.symm
      simp [alook, hk', hne, ih]
    · subst hk'
      have hel : (if (a, b).1 = k then ((a, b).1, v) else (a, b)) = (a, b) := by simp [hak]
      rw [hel]
      simp [alook, hak]
    · have hel : (if (a, b).1 = k then ((a, b).1, v) else (a, b)) = (a, b) := by simp [hak]
      rw [hel]
      have hne : ¬ k' = a := fun h => hk' h.symm
      simp [alook, hk', hne, hak, ih]

theorem alook_aset {β : Type} (m : List (JStr × β)) (k k' : JStr) (v : β) :
    alook (aset m k v) k' = if k' = k then some v else alook m k' := by
  by_cases hmem : k ∈ m.map Prod.fst
  · rw [aset, if_pos hmem, alook_replace]
    by_cases hk : k' = k
    · subst hk
      cases halook : alook m k' with
      | none => rw [alook_eq_none_iff] at halook; exact absurd hmem halook
      | some w => simp
    · simp [hk]
  · rw [aset, if_neg hmem, alook_append]
    by_cases hk : k' = k
    · subst hk
      have hnone : alook m k' = none := (alook_eq_none_iff m k').mpr hmem
      simp [hnone, alook]
    · cases halook : alook m k' with
      | none => simp [halook, alook, hk, Ne.symm hk]
      | some w => simp [halook, hk]

theorem map_fst_aset {β : Type} (m : List (JStr × β)) (k : JStr) (v : β) :
    (aset m k v).map Prod.fst =
      if k ∈ m.map Prod.fst then m.map Prod.fst else m.map Prod.fst ++ [k] := by
  by_cases h : k ∈ m.map Prod.fst
  · simp only [aset, if_pos h, List.map_map]
    apply List.map_congr_left
    intro p _
    by_cases hp : p.1 = k <;> simp [hp]
  · rw [aset, if_neg h, List.map_append, if_neg h]
    rfl

theorem nodup_keys_aset {β : Type} (m : List (JStr × β)) (k : JStr) (v : β)
    (h : (m.map Prod.fst).Nodup) : ((aset m k v).map Prod.fst).Nodup := by
  rw [map_fst_aset]
  by_cases hmem : k ∈ m.map Prod.fst
  · simpa [hmem] using h
  · simp [hmem, List.nodup_append, h]

theorem mem_iff_alook {β : Type} (m : List (JStr × β)) (k : JStr) (v : β)
    (h : (m.map Prod.fst).Nodup) : (k, v) ∈ m ↔ alook m k = some v := by
  induction m with
  | nil => simp [alook]
  | cons p rest ih =>
    obtain ⟨a, b⟩ := p
    simp only [List.map_cons, List.nodup_cons] at h
    obtain ⟨hnotin, hrest⟩ := h
    by_cases hak : a = k
    · subst hak
      rw [show alook ((a, b) :: rest) a = some b from by simp [alook]]
      constructor
      · intro hmem
        rcases List.mem_cons.mp hmem with heq | hmem'
        · cases heq
          rfl
        · exact absurd (List.mem_map_of_mem Prod.fst hmem') hnotin
      · intro hsome
        injection hsome with hbv
        exact List.mem_cons.mpr (Or.inl (by rw [hbv]))
    · rw [show alook ((a, b) :: rest) k = alook rest k from by simp [alook, hak]]
      rw [← ih hrest]
      constructor
      · intro hmem
        rcases List.mem_cons.mp hmem with heq | hmem'
        · exact absurd (congrArg Prod.fst heq).symm hak
        · exact hmem'
      · intro hmem
        exact List.mem_cons.mpr (Or.inr hmem)

/-! ## Minute-dedup lemmas -/

theorem nodup_keys_dedupGo :
    ∀ (hist : List HistItem) (m : List (JStr × Rat)), (m.map Prod.fst).Nodup →
      ((minuteDedupGo m hist).map Prod.fst).Nodup := by
  intro hist
  induction hist with
  | nil => intro m h; simpa [minuteDedupGo] using h
  | cons item rest ih =>
    intro m h
    simp only [minuteDedupGo]
    by_cases hl : minuteLabel item.timestamp = []
    · simpa [hl] using ih m h
    · simpa [hl] using ih (aset m (minuteLabel item.timestamp) item.value)
        (nodup_keys_aset m _ _ h)

theorem alook_dedupGo :
    ∀ (hist : List HistItem) (m : List (JStr × Rat)) (k : JStr),
      alook (minuteDedupGo m hist) k =
        match lastValueForMinute k hist with
        | some v => some v
        | none => alook m k := by
  intro hist
  induction hist with
  | nil => intro m k; simp [minuteDedupGo, lastValueForMinute]
  | cons item rest ih =>
    intro m k
    show alook (minuteDedupGo
        (if minuteLabel item.timestamp = [] then m
         else aset m (minuteLabel item.timestamp) item.value) rest) k = _
    by_cases hl : minuteLabel item.timestamp = []
    · rw [if_pos hl, ih]
      cases h : lastValueForMinute k rest with
      | some v =>
        rw [show lastValueForMinute k (item :: rest) = some v from by
          simp [lastValueForMinute, h]]
      | none =>
        rw [show lastValueForMinute k (item :: rest) = none from by
          simp [lastValueForMinute, h, hl]]
    · rw [if_neg hl, ih]
      cases h : lastValueForMinute k rest with
      | some v =>
        rw [show lastValueForMinute k (item :: rest) = some v from by
          simp [lastValueForMinute, h]]
      | none =>
        by_cases hk : minuteLabel item.timestamp = k
        · rw [alook_aset, if_pos hk.symm]
          rw [show lastValueForMinute k (item :: rest) = some item.value from by
            have hkne : ¬ k = [] := fun hke => hl (hk.trans hke)
            simp [lastValueForMinute, h, hl, hk, hkne]]
        · rw [alook_aset, if_neg (fun hkk => hk hkk.symm)]
          rw [show lastValueForMinute k (item :: rest) = none from by
            simp [lastValueForMinute, h, hk]]

/-- C6: minute-bucket deduplication maps each `HH:MM` minute to exactly one
point (the key list has no duplicates), and the surviving value for each
minute is the last value seen for that minute in input order — later
entries overwrite earlier ones within the same bucket; in particular the
spec's example `12:05:01→100, 12:05:30→101, 12:05:59→102` dedups to the
single point `12:05→102`. -/
theorem minute_dedup_last_write_wins (hist : List HistItem) :
    ((minuteDedup hist).map Prod.fst).Nodup ∧
    (∀ k v, ((k, v) ∈ minuteDedup hist ↔ lastValueForMinute k hist = some v)) ∧
    minuteDedup [⟨some "2026-01-05 12:05:01".data, 100⟩,
      ⟨some "2026-01-05 12:05:30".data, 101⟩, ⟨some "2026-01-05 12:05:59".data, 102⟩] =
      [("12:05".data, 102)] := by
  have hnd : ((minuteDedup hist).map Prod.fst).Nodup :=
    nodup_keys_dedupGo hist [] (by simp)
  refine ⟨hnd, fun k v => ?_, by decide⟩
  rw [mem_iff_alook _ _ _ hnd, minuteDedup, alook_dedupGo]
  cases h : lastValueForMinute k hist <;> simp [alook]

/-! ## Splice-order lemmas -/

theorem histLabels_cons (item : HistItem) (rest : List HistItem) :
    histLabels (item :: rest) =
      if minuteLabel item.timestamp = [] then histLabels rest
      else minuteLabel item.timestamp :: histLabels rest := by
  by_cases hl : minuteLabel item.timestamp = [] <;> simp [histLabels, hl]

theorem dedupGo_keys_sorted :
    ∀ (hist : List HistItem) (m : List (JStr × Rat)),
      (m.map Prod.fst).Pairwise (fun a b => jsStrLt a b = true) →
      (∀ k ∈ m.map Prod.fst, ∀ l ∈ histLabels hist, jsStrLt l k = false) →
      (histLabels hist).Pairwise (fun a b => jsStrLt b a = false) →
      ((minuteDedupGo m hist).map Prod.fst).Pairwise (fun a b => jsStrLt a b = true) := by
  intro hist
  induction hist with
  | nil => intro m h1 _ _; simpa [minuteDedupGo] using h1
  | cons item rest ih =>
    intro m h1 h2 h3
    rw [histLabels_cons] at h2 h3
    show ((minuteDedupGo
        (if minuteLabel item.timestamp = [] then m
         else aset m (minuteLabel item.timestamp) item.value) rest).map Prod.fst).Pairwise _
    by_cases hl : minuteLabel item.timestamp = []
    · rw [if_pos hl]
      rw [if_pos hl] at h2 h3
      exact ih m h1 h2 h3
    · rw [if_neg hl]
      rw [if_neg hl] at h2 h3
      obtain ⟨hhead, htail⟩ := List.pairwise_cons.mp h3
      apply ih
      · rw [map_fst_aset]
        by_cases hmem : minuteLabel item.timestamp ∈ m.map Prod.fst
        · rw [if_pos hmem]; exact h1
        · rw [if_neg hmem]
          rw [List.pairwise_append]
          refine ⟨h1, List.pairwise_singleton _ _, ?_⟩
          intro a ha c hc
          rw [List.mem_singleton] at hc
          subst hc
          have hla : jsStrLt (minuteLabel item.timestamp) a = false :=
            h2 a ha _ (List.mem_cons_self _ _)
          have hne : a ≠ minuteLabel item.timestamp := fun he => hmem (he ▸ ha)
          cases hab : jsStrLt a (minuteLabel item.timestamp) with
          | true => rfl
          | false => exact absurd (jsStrLt_conn a _ hab hla) hne
      · intro k hk l hlmem
        rw [map_fst_aset] at hk
        by_cases hmem : minuteLabel item.timestamp ∈ m.map Prod.fst
        · rw [if_pos hmem] at hk
          exact h2 k hk l (List.mem_cons_of_mem _ hlmem)
        · rw [if_neg hmem] at hk
          rcases List.mem_append.mp hk with hk' | hk'
          · exact h2 k hk' l (List.mem_cons_of_mem _ hlmem)
          · rw [List.mem_singleton] at hk'
            subst hk'
            exact hhead l hlmem
      · exact htail

theorem dedupGo_keys_ext :
    ∀ (hist : List HistItem) (m : List (JStr × Rat)),
      ∃ ext, (minuteDedupGo m hist).map Prod.fst = m.map Prod.fst ++ ext := by
  intro hist
  induction hist with
  | nil => intro m; exact ⟨[], by simp [minuteDedupGo]⟩
  | cons item rest ih =>
    intro m
    show ∃ ext, (minuteDedupGo
        (if minuteLabel item.timestamp = [] then m
         else aset m (minuteLabel item.timestamp) item.value) rest).map Prod.fst = _
    by_cases hl : minuteLabel item.timestamp = []
    · rw [if_pos hl]; exact ih m
    · rw [if_neg hl]
      obtain ⟨ext, hext⟩ := ih (aset m (minuteLabel item.timestamp) item.value)
      rw [map_fst_aset] at hext
      by_cases hmem : minuteLabel item.timestamp ∈ m.map Prod.fst
      · rw [if_pos hmem] at hext; exact ⟨ext, hext⟩
      · rw [if_neg hmem] at hext
        refine ⟨minuteLabel item.timestamp :: ext, ?_⟩
        rw [hext, List.append_assoc]
        rfl

theorem dedup_head :
    ∀ (hist : List HistItem) (l : JStr) (ls : List JStr), histLabels hist = l :: ls →
      ∃ ext, (minuteDedup hist).map Prod.fst = l :: ext := by
  intro hist
  induction hist with
  | nil => intro l ls h; simp [histLabels] at h
  | cons item rest ih =>
    intro l ls h
    rw [histLabels_cons] at h
    by_cases hl : minuteLabel item.timestamp = []
    · rw [if_pos hl] at h
      obtain ⟨ext, hext⟩ := ih l ls h
      refine ⟨ext, ?_⟩
      show (minuteDedupGo
          (if minuteLabel item.timestamp = [] then []
           else aset [] (minuteLabel item.timestamp) item.value) rest).map Prod.fst = _
      rw [if_pos hl]
      exact hext
    · rw [if_neg hl] at h
      injection h with h1 h2
      subst h1
      have haset : aset ([] : List (JStr × Rat)) (minuteLabel item.timestamp) item.value =
          [(minuteLabel item.timestamp, item.value)] := by simp [aset]
      obtain ⟨ext, hext⟩ :=
        dedupGo_keys_ext rest [(minuteLabel item.timestamp, item.value)]
      refine ⟨ext, ?_⟩
      show (minuteDedupGo
          (if minuteLabel item.timestamp = [] then []
           else aset [] (minuteLabel item.timestamp) item.value) rest).map Prod.fst = _
      rw [if_neg hl, haset, hext]
      rfl

theorem filterBase_fst :
    ∀ (ls : List JStr) (vs : List Rat) (first : JStr), ls.length = vs.length →
      (filterBase ls vs first).1 = ls.filter (fun l => jsStrLt l first) := by
  intro ls
  induction ls with
  | nil => intro vs first _; simp [filterBase]
  | cons l ls ih =>
    intro vs first hlen
    cases vs with
    | nil => simp at hlen
    | cons v vs =>
      have hlen' : ls.length = vs.length := by
        simp only [List.length_cons] at hlen
        omega
      simp only [filterBase]
      by_cases hlt : jsStrLt l first = true
      · rw [if_pos hlt, List.filter_cons_of_pos (by simpa using hlt)]
        exact congrArg (List.cons l) (ih vs first hlen')
      · rw [if_neg hlt, List.filter_cons_of_neg (by simpa using hlt)]
        exact ih vs first hlen'

theorem filterBase_snd :
    ∀ (ls : List JStr) (vs : List Rat) (first : JStr), ls.length = vs.length →
      (filterBase ls vs first).2 =
        ((ls.zip vs).filter (fun p => jsStrLt p.1 first)).map Prod.snd := by
  intro ls
  induction ls with
  | nil => intro vs first _; simp [filterBase]
  | cons l ls ih =>
    intro vs first hlen
    cases vs with
    | nil => simp at hlen
    | cons v vs =>
      have hlen' : ls.length = vs.length := by
        simp only [List.length_cons] at hlen
        omega
      simp only [filterBase, List.zip_cons_cons]
      by_cases hlt : jsStrLt l first = true
      · rw [if_pos hlt, List.filter_cons_of_pos (by simpa using hlt)]
        rw [List.map_cons]
        exact congrArg (List.cons v) (ih vs first hlen')
      · rw [if_neg hlt, List.filter_cons_of_neg (by simpa using hlt)]
        exact ih vs first hlen'

/-- C5: for a chronologically ordered base chart (strictly increasing
labels, parallel arrays) and a chronologically ordered fast series
(nondecreasing minute labels), the spliced output is exactly the base
pairs whose label is strictly below the fast series' first minute label,
followed by the minute-deduplicated fast points; its label sequence is
strictly increasing (hence non-decreasing with no duplicate label). -/
theorem splice_exact_and_monotone (baseM : List (JStr × BaseChart)) (indexKey : JStr)
    (hist : List HistItem) (b : BaseChart)
    (hb : alook baseM indexKey = some b)
    (hlen : b.labels.length = b.values.length)
    (hbsorted : b.labels.Pairwise (fun a c => jsStrLt a c = true))
    (hbne : b.labels ≠ [])
    (hfsorted : (histLabels hist).Pairwise (fun a c => jsStrLt c a = false))
    (hfne : histLabels hist ≠ []) :
    (spliceHist baseM indexKey hist).1 =
        b.labels.filter (fun l => jsStrLt l ((histLabels hist).headD [])) ++
          (minuteDedup hist).map Prod.fst ∧
    (spliceHist baseM indexKey hist).2 =
        ((b.labels.zip b.values).filter
            (fun p => jsStrLt p.1 ((histLabels hist).headD []))).map Prod.snd ++
          (minuteDedup hist).map Prod.snd ∧
    (spliceHist baseM indexKey hist).1.Pairwise (fun a c => jsStrLt a c = true) ∧
    (spliceHist baseM indexKey hist).1.Nodup := by
  obtain ⟨l, ls, hcons⟩ : ∃ l ls, histLabels hist = l :: ls := by
    cases hh : histLabels hist with
    | nil => exact absurd hh hfne
    | cons l ls => exact ⟨l, ls, rfl⟩
  obtain ⟨ext, hkeys⟩ := dedup_head hist l ls hcons
  have hfirstD : (histLabels hist).headD [] = l := by rw [hcons]; rfl
  have hupfirst : ((minuteDedup hist).map Prod.fst).headD [] = l := by rw [hkeys]; rfl
  have hcond : 0 < b.labels.length ∧ 0 < ((minuteDedup hist).map Prod.fst).length :=
    ⟨List.length_pos.mpr hbne, by rw [hkeys]; simp⟩
  have hsplice1 : (spliceHist baseM indexKey hist).1 =
      (filterBase b.labels b.values l).1 ++ (minuteDedup hist).map Prod.fst := by
    simp only [spliceHist, hb]
    rw [if_pos hcond, hupfirst]
  have hsplice2 : (spliceHist baseM indexKey hist).2 =
      (filterBase b.labels b.values l).2 ++ (minuteDedup hist).map Prod.snd := by
    simp only [spliceHist, hb]
    rw [if_pos hcond, hupfirst]
  have hkey_sorted : ((minuteDedup hist).map Prod.fst).Pairwise
      (fun a c => jsStrLt a c = true) :=
    dedupGo_keys_sorted hist [] (by simp) (by simp) hfsorted
  have hpair : (spliceHist baseM indexKey hist).1.Pairwise
      (fun a c => jsStrLt a c = true) := by
    rw [hsplice1, filterBase_fst _ _ _ hlen]
    refine List.pairwise_append.mpr ⟨?_, hkey_sorted, ?_⟩
    · exact List.Pairwise.sublist (List.filter_sublist _) hbsorted
    · intro a ha k hk
      have halt : jsStrLt a l = true := by simpa using List.of_mem_filter ha
      rw [hkeys] at hk
      rcases List.mem_cons.mp hk with rfl | hk'
      · exact halt
      · have hkeys' := hkeys ▸ hkey_sorted
        have hlk : jsStrLt l k = true := (List.pairwise_cons.mp hkeys').1 k hk'
        exact jsStrLt_trans a l k halt hlk
  refine ⟨?_, ?_, hpair, ?_⟩
  · rw [hsplice1, filterBase_fst _ _ _ hlen, hfirstD]
  · rw [hsplice2, filterBase_snd _ _ _ hlen, hfirstD]
  · exact hpair.imp fun {x y} hxy he => by
      rw [he, jsStrLt_irrefl] at hxy
      exact Bool.noConfusion hxy

/-- Witness for C5 at a concrete base chart and three fast points spanning
two minutes. -/
theorem splice_exact_and_monotone_witness :
    (spliceHist sampleBaseM "nifty50".data sampleHist3).1.Pairwise
      (fun a c => jsStrLt a c = true) :=
  (splice_exact_and_monotone sampleBaseM "nifty50".data sampleHist3 sampleBase
    (by decide) (by decide) (by decide) (by decide) (by decide) (by decide)).2.2.1

/-! ## Cache frame lemmas -/

theorem updateChartHist_caches (indexKey : JStr) (data : ChartInput)
    (baseM : List (JStr × BaseChart)) (ohlcM : List (JStr × DayOhlc)) :
    (updateChartHist indexKey data baseM ohlcM).1 = baseM ∧
    (updateChartHist indexKey data baseM ohlcM).2.1 = ohlcM := by
  unfold updateChartHist
  split
  · split
    · exact ⟨rfl, rfl⟩
    · exact ⟨rfl, rfl⟩
  · exact ⟨rfl, rfl⟩

/-- C7: the per-entity BaseChartCache (`nseBaseChart`) and DayOHLC
(`nseChartOhlc`) are written only by an NSE payload whose parsed in-session
series is nonempty: a history-shaped (fast-source) payload leaves both
caches unchanged, an NSE payload whose in-session part is empty leaves them
unchanged, any change implies a nonempty in-session slow series, and a
whole fast poll tick preserves both caches. -/
theorem caches_written_only_by_slow_series :
    (∀ (indexKey : JStr) (data : ChartInput) (baseM : List (JStr × BaseChart))
        (ohlcM : List (JStr × DayOhlc)), data.series = none →
      (updateChart indexKey data baseM ohlcM).1 = baseM ∧
      (updateChart indexKey data baseM ohlcM).2.1 = ohlcM) ∧
    (∀ (indexKey : JStr) (data : ChartInput) (s : List (Nat × Rat))
        (baseM : List (JStr × BaseChart)) (ohlcM : List (JStr × DayOhlc)),
      data.series = some s → (parseNseSeries s).1 = [] →
      (updateChart indexKey data baseM ohlcM).1 = baseM ∧
      (updateChart indexKey data baseM ohlcM).2.1 = ohlcM) ∧
    (∀ (indexKey : JStr) (data : ChartInput) (baseM : List (JStr × BaseChart))
        (ohlcM : List (JStr × DayOhlc)),
      ((updateChart indexKey data baseM ohlcM).1 ≠ baseM ∨
        (updateChart indexKey data baseM ohlcM).2.1 ≠ ohlcM) →
      ∃ s, data.series = some s ∧ (parseNseSeries s).1 ≠ []) ∧
    (∀ (today : JStr) (st : UpdState) (fetched : Option (List (JStr × UpstoxRec))),
      (pollUpstox today st fetched).1.nseBaseChart = st.nseBaseChart ∧
      (pollUpstox today st fetched).1.nseChartOhlc = st.nseChartOhlc) := by
  have hnone : ∀ (indexKey : JStr) (data : ChartInput) (baseM : List (JStr × BaseChart))
      (ohlcM : List (JStr × DayOhlc)), data.series = none →
      (updateChart indexKey data baseM ohlcM).1 = baseM ∧
      (updateChart indexKey data baseM ohlcM).2.1 = ohlcM := by
    intro indexKey data baseM ohlcM h
    simp only [updateChart, h]
    exact updateChartHist_caches indexKey data baseM ohlcM
  have hempty : ∀ (indexKey : JStr) (data : ChartInput) (s : List (Nat × Rat))
      (baseM : List (JStr × BaseChart)) (ohlcM : List (JStr × DayOhlc)),
      data.series = some s → (parseNseSeries s).1 = [] →
      (updateChart indexKey data baseM ohlcM).1 = baseM ∧
      (updateChart indexKey data baseM ohlcM).2.1 = ohlcM := by
    intro indexKey data s baseM ohlcM h hlab
    simp only [updateChart, h]
    by_cases hs : 0 < s.length
    · rw [if_pos hs]
      constructor
      · simp [updateChartNse, hlab]
      · simp [updateChartNse, hlab]
    · rw [if_neg hs]
      exact updateChartHist_caches indexKey data baseM ohlcM
  refine ⟨hnone, hempty, ?_, ?_⟩
  · intro indexKey data baseM ohlcM hne
    cases hs : data.series with
    | none =>
      have hc := hnone indexKey data baseM ohlcM hs
      rcases hne with hne | hne
      · exact absurd hc.1 hne
      · exact absurd hc.2 hne
    | some s =>
      by_cases hlab : (parseNseSeries s).1 = []
      · have hc := hempty indexKey data s baseM ohlcM hs hlab
        rcases hne with hne | hne
        · exact absurd hc.1 hne
        · exact absurd hc.2 hne
      · exact ⟨s, rfl, hlab⟩
  · intro today st fetched
    cases fetched with
    | none => exact ⟨rfl, rfl⟩
    | some data =>
      simp only [pollUpstox]
      cases halook : alook data st.selectedIndex with
      | none => simp [halook]
      | some sel =>
        by_cases hf : upstoxHistoryIsToday today sel.history = true
        · have hu := hnone st.selectedIndex (chartInputOfUpstox sel) st.nseBaseChart
            st.nseChartOhlc rfl
          simp [halook, hf, hu.1, hu.2]
        · simp [halook, hf]

/-- Witness for C7: a history-shaped payload leaves concrete caches
unchanged. -/
theorem caches_written_only_by_slow_series_witness :
    (updateChart "nifty50".data (chartInputOfUpstox sampleFreshRec) sampleBaseM []).1 =
      sampleBaseM ∧
    (updateChart "nifty50".data (chartInputOfUpstox sampleFreshRec) sampleBaseM []).2.1 =
      ([] : List (JStr × DayOhlc)) :=
  caches_written_only_by_slow_series.1 "nifty50".data (chartInputOfUpstox sampleFreshRec)
    sampleBaseM [] rfl

/-! ## Fast-tick event shape -/

theorem pollUpstox_fresh_events (today : JStr) (st : UpdState)
    (data : List (JStr × UpstoxRec)) (sel : UpstoxRec)
    (hsel : alook data st.selectedIndex = some sel)
    (hfresh : upstoxHistoryIsToday today sel.history = true) :
    (pollUpstox today st (some data)).2 =
      data.filterMap
          (fun kr => updateIndexCard kr.1 (upstoxCardData st.latestNseData kr.1 kr.2)) ++
        RenderEvent.detail st.selectedIndex
            (assembleDetailData sel (alook st.nseChartOhlc st.selectedIndex)
              (st.latestNseData.bind (fun m => alook m st.selectedIndex))) ::
          ((updateChart st.selectedIndex (chartInputOfUpstox sel) st.nseBaseChart
              st.nseChartOhlc).2.2.map RenderEvent.chart).toList := by
  simp [pollUpstox, hsel, hfresh]

/-- C2 (amended): on a fast-source tick, card arbitration is gated by the
*selected* entity's freshness test, not each entity's own: when the
selected entity is absent from the payload, or its snapshot is stale, no
card (or any other) render happens this tick; when the selected entity's
snapshot is fresh, the cards of all card-mapped entities in the payload
are updated from the fast payload (with the slow change/percent override
of `upstoxCardData`). Per-entity freshness is applied only on slow ticks. -/
theorem fast_tick_card_arbitration (today : JStr) (st : UpdState)
    (data : List (JStr × UpstoxRec)) :
    (alook data st.selectedIndex = none → (pollUpstox today st (some data)).2 = []) ∧
    (∀ sel, alook data st.selectedIndex = some sel →
      upstoxHistoryIsToday today sel.history = false →
      (pollUpstox today st (some data)).2 = []) ∧
    (∀ sel, alook data st.selectedIndex = some sel →
      upstoxHistoryIsToday today sel.history = true →
      ∀ key rec, (key, rec) ∈ data → key ∈ cardKeys →
        RenderEvent.card key (renderCard (upstoxCardData st.latestNseData key rec)) ∈
          (pollUpstox today st (some data)).2) := by
  refine ⟨?_, ?_, ?_⟩
  · intro h
    simp [pollUpstox, h]
  · intro sel h hf
    simp [pollUpstox, h, hf]
  · intro sel h hf key rec hmem hck
    rw [pollUpstox_fresh_events today st data sel h hf]
    exact List.mem_append_left _ (List.mem_filterMap.mpr ⟨(key, rec), hmem, by
      simp [updateIndexCard, hck]⟩)

/-- Counterexample for C2 as stated: on a fast tick whose payload contains
an entity (`banknifty`) whose own fast history is fresh, while the selected
entity's (`nifty50`) history is stale, the code performs *no* card update
at all — so cards are not arbitrated per-entity by their own freshness
test on fast ticks. -/
theorem fast_tick_card_arbitration_cex :
    upstoxHistoryIsToday sampleToday sampleFreshRec.history = true ∧
    "banknifty".data ∈ cardKeys ∧
    (pollUpstox sampleToday sampleState
      (some [("nifty50".data, sampleStaleRec), ("banknifty".data, sampleFreshRec)])).2 =
      [] := by
  refine ⟨by decide, by decide, by decide⟩

/-- Witness for C2 (amended): with the selected entity fresh, a concrete
non-selected card entity's card is rendered. -/
theorem fast_tick_card_arbitration_witness :
    RenderEvent.card "banknifty".data
        (renderCard (upstoxCardData sampleState.latestNseData "banknifty".data
          sampleFreshRec)) ∈
      (pollUpstox sampleToday sampleState
        (some [("nifty50".data, sampleFreshRec5), ("banknifty".data, sampleFreshRec)])).2 :=
  (fast_tick_card_arbitration sampleToday sampleState
      [("nifty50".data, sampleFreshRec5), ("banknifty".data, sampleFreshRec)]).2.2
    sampleFreshRec5 (by decide) (by decide) "banknifty".data sampleFreshRec
    (by decide) (by decide)

/-- C1: with the fast snapshot of the selected entity fresh, a cached
DayOHLC entry and a cached slow price record present, the fast tick renders
a detail panel whose assembled DisplayRecord takes open/high/low from the
DayOHLC cache, change/percentChange from the slow price record, and value
from the fast snapshot — with no constraint tying the two sources' values
together — and each override falls back to the fast snapshot's own field
when its slow counterpart is absent, independently of the other group. -/
theorem arbiter_field_independence (today : JStr) (st : UpdState)
    (data : List (JStr × UpstoxRec)) (sel : UpstoxRec) (o : DayOhlc)
    (nse : List (JStr × NsePriceRec)) (p : NsePriceRec)
    (hsel : alook data st.selectedIndex = some sel)
    (hfresh : upstoxHistoryIsToday today sel.history = true)
    (hohlc : alook st.nseChartOhlc st.selectedIndex = some o)
    (hnse : st.latestNseData = some nse)
    (hp : alook nse st.selectedIndex = some p) :
    RenderEvent.detail st.selectedIndex (assembleDetailData sel (some o) (some p)) ∈
        (pollUpstox today st (some data)).2 ∧
    (assembleDetailData sel (some o) (some p)).value = sel.value ∧
    (assembleDetailData sel (some o) (some p)).open_ = some o.open_ ∧
    (assembleDetailData sel (some o) (some p)).high = some o.high ∧
    (assembleDetailData sel (some o) (some p)).low = some o.low ∧
    (assembleDetailData sel (some o) (some p)).change = p.change ∧
    (assembleDetailData sel (some o) (some p)).percentChange = p.percentChange ∧
    (∀ oh : Option DayOhlc, (assembleDetailData sel oh none).value = sel.value ∧
      (assembleDetailData sel oh none).change = sel.change ∧
      (assembleDetailData sel oh none).percentChange = sel.percentChange) ∧
    (∀ pr : Option NsePriceRec, (assembleDetailData sel none pr).value = sel.value ∧
      (assembleDetailData sel none pr).open_ = none) := by
  refine ⟨?_, rfl, rfl, rfl, rfl, rfl, rfl, fun oh => ⟨rfl, rfl, rfl⟩,
    fun pr => ⟨rfl, rfl⟩⟩
  rw [pollUpstox_fresh_events today st data sel hsel hfresh, hohlc, hnse]
  simp only [Option.some_bind]
  rw [hp]
  exact List.mem_append_right _ (List.mem_cons_self _ _)

/-- Witness for C1 at concrete state and payload; the two sources disagree
on `value` (fast 300 vs slow 299) and the detail render still carries the
fast value with slow OHLC and slow change/percent. -/
theorem arbiter_field_independence_witness :
    RenderEvent.detail sampleStateFull.selectedIndex
        (assembleDetailData sampleFreshRec5 (some sampleOhlc) (some sampleNseRec)) ∈
      (pollUpstox sampleToday sampleStateFull (some [("nifty50".data, sampleFreshRec5)])).2 :=
  (arbiter_field_independence sampleToday sampleStateFull
      [("nifty50".data, sampleFreshRec5)] sampleFreshRec5 sampleOhlc
      [("nifty50".data, sampleNseRec)] sampleNseRec
      (by decide) (by decide) (by decide) rfl (by decide)).1

/-- C3 (amended): on a fast tick, when the *selected* entity's snapshot is
fresh, every card-mapped entity's card in the payload shows the fast
snapshot's current value, but its change/percent-change come from the
cached slow record for that entity when one exists (falling back to the
fast snapshot's own fields when none does); on a slow tick, an entity
whose fast snapshot is not fresh gets the slow snapshot's value and
percent-change on its card. -/
theorem card_value_and_pct_sources (today : JStr) (st : UpdState) :
    (∀ (data : List (JStr × UpstoxRec)) (sel : UpstoxRec),
      alook data st.selectedIndex = some sel →
      upstoxHistoryIsToday today sel.history = true →
      ∀ key rec, (key, rec) ∈ data → key ∈ cardKeys →
        RenderEvent.card key (renderCard (upstoxCardData st.latestNseData key rec)) ∈
            (pollUpstox today st (some data)).2 ∧
        (upstoxCardData st.latestNseData key rec).value = rec.value ∧
        (upstoxCardData st.latestNseData key rec).percentChange =
          (match st.latestNseData.bind (fun m => alook m key) with
           | some nc => nc.percentChange
           | none => rec.percentChange)) ∧
    (∀ (ndata : List (JStr × NsePriceRec)) (key : JStr) (rec : NsePriceRec),
      (key, rec) ∈ ndata → key ∈ cardKeys →
      upstoxOkFor today st.latestUpstoxData key = false →
      RenderEvent.card key (renderCard ⟨rec.value, rec.change, rec.percentChange⟩) ∈
        (pollNsePrices today st (some ndata)).2) := by
  constructor
  · intro data sel hsel hfresh key rec hmem hck
    refine ⟨?_, ?_, ?_⟩
    · rw [pollUpstox_fresh_events today st data sel hsel hfresh]
      exact List.mem_append_left _ (List.mem_filterMap.mpr ⟨(key, rec), hmem, by
        simp [updateIndexCard, hck]⟩)
    · cases hnc : st.latestNseData.bind (fun m => alook m key) <;>
        simp [upstoxCardData, hnc]
    · cases hnc : st.latestNseData.bind (fun m => alook m key) <;>
        simp [upstoxCardData, hnc]
  · intro ndata key rec hmem hck hok
    simp only [pollNsePrices]
    apply List.mem_append_left
    refine List.mem_filterMap.mpr ⟨(key, rec), hmem, ?_⟩
    simp [hok, updateIndexCard, hck]

/-- Counterexample for C3 as stated: with the selected entity's fast
snapshot fresh and carrying percent-change 5, and a cached slow record with
percent-change −2, the rendered card shows −2 (the slow value), not the
fast snapshot's 5. -/
theorem card_value_and_pct_sources_cex :
    sampleFreshRec5.percentChange = 5 ∧
    upstoxHistoryIsToday sampleToday sampleFreshRec5.history = true ∧
    (pollUpstox sampleToday sampleStateNse
        (some [("nifty50".data, sampleFreshRec5)])).2.head? =
      some (RenderEvent.card "nifty50".data (renderCard ⟨300, -6, -2⟩)) ∧
    (renderCard (⟨300, -6, -2⟩ : CardData)).pct ≠ sampleFreshRec5.percentChange := by
  refine ⟨by decide, by decide, by decide, by decide⟩

/-- Witness for C3 (amended): a concrete slow tick renders the slow value
and percent-change for an entity with no fresh fast data. -/
theorem card_value_and_pct_sources_witness :
    RenderEvent.card "nifty50".data
        (renderCard ⟨sampleNseRec.value, sampleNseRec.change, sampleNseRec.percentChange⟩) ∈
      (pollNsePrices sampleToday sampleState (some [("nifty50".data, sampleNseRec)])).2 :=
  (card_value_and_pct_sources sampleToday sampleState).2 [("nifty50".data, sampleNseRec)]
    "nifty50".data sampleNseRec (by decide) (by decide) (by decide)
